import Mathlib

/-!
# glow: frontmatter filter and top-level UI controller

A shallow embedding of `utils/utils.go` (`RemoveFrontmatter`,
`detectFrontmatter`, `yamlPattern`) and of `ui/ui.go` (`newModel`, `Init`,
`Update`, `unloadDocument`, `stripAbsolutePath`, `localFileToMarkdown`).

Conventions.

* A Go `[]byte` (and the body of a document) is a `List Byte`, a byte being a
  number below 256.  Paths and key names are Lean strings.
* A `tea.Cmd` is the list of primitive commands it launches: `nil` is `[]`,
  and `tea.Batch` is concatenation.
* The operating system and the parts of the repository that `ui.go` calls but
  that live in other files (the list view `stash`, the document view
  `pager`) are the fields of an environment `Env`.
-/

namespace Glow

/-! ## Bytes -/

/-- One byte of a Go byte slice. -/
abbrev Byte := Fin 256

/-- Line feed, the byte written `\n`. -/
def LF : Byte := 10

/-- Carriage return, the byte written `\r`. -/
def CR : Byte := 13

/-- The byte of the character `-`. -/
def DASH : Byte := 45

/-- The class `\s` of Go regular expressions (RE2): tab, line feed, form feed,
carriage return and space. -/
def isSpace (b : Byte) : Bool :=
  b == 9 || b == 10 || b == 12 || b == 13 || b == 32

/-! ## Regular expressions with leftmost-first matching

`regexp` in Go returns the match that starts leftmost and, among those, the
one a backtracking search finds first.  `Regex.run` lists the ends of all
matches from a cursor in the order a backtracking search meets them.  The
pattern of this program is ASCII only, so matching byte by byte and matching
rune by rune agree. -/

/-- The syntax of the regular expressions needed for `yamlPattern`. -/
inductive Regex where
  /-- A literal byte. -/
  | lit (b : Byte)
  /-- A character class. -/
  | cls (p : Byte → Bool)
  /-- The assertion `^` under the flag `(?m)`: start of text or just after a line feed. -/
  | bol
  /-- Concatenation. -/
  | seq (r s : Regex)
  /-- Greedy `r?`. -/
  | opt (r : Regex)
  /-- Greedy `r*`. -/
  | star (r : Regex)

/-- A cursor into the input: whether it stands at a line start, and the bytes
that remain to its right. -/
structure Pos where
  bol : Bool
  rest : List Byte
deriving DecidableEq

/-- Greedy iteration of a matcher `f`, with `fuel` bounding the number of
rounds; a round that consumes nothing is cut, as in a compiled program. -/
def starRun (f : Pos → List Pos) : Nat → Pos → List Pos
  | 0, q => [q]
  | fuel + 1, q =>
    (((f q).filter (fun q' => decide (q'.rest.length < q.rest.length))).flatMap
      (starRun f fuel)) ++ [q]

/-- All ways to match `r` from the cursor `q`, in backtracking order; each
result is the cursor where that match ends. -/
def Regex.run : Regex → Pos → List Pos
  | .lit b, q =>
    match q.rest with
    | [] => []
    | c :: t => if c = b then [⟨c == LF, t⟩] else []
  | .cls p, q =>
    match q.rest with
    | [] => []
    | c :: t => if p c then [⟨c == LF, t⟩] else []
  | .bol, q => if q.bol then [q] else []
  | .seq r s, q => (r.run q).flatMap (fun q' => s.run q')
  | .opt r, q => r.run q ++ [q]
  | .star r, q => starRun (fun q' => r.run q') q.rest.length q

/-- The search of `doExecute`: the leftmost cursor at or after the given one
from which `r` matches, with the end of the first match found there. -/
def Regex.find (r : Regex) : Bool → List Byte → Option (Pos × Pos)
  | atBol, [] =>
    match (r.run ⟨atBol, []⟩).head? with
    | some e => some (⟨atBol, []⟩, e)
    | none => none
  | atBol, c :: t =>
    match (r.run ⟨atBol, c :: t⟩).head? with
    | some e => some (⟨atBol, c :: t⟩, e)
    | none => Regex.find r (c == LF) t

/-- The loop of `FindAllIndex(c, n)` for a pattern that matches no empty
string: at most `n` successive matches, each search resuming where the
previous match ended.  A match is the pair of its start and end offsets in
the whole input, of length `len`. -/
def Regex.findAllIndex (r : Regex) (len : Nat) : Nat → Pos → List (Nat × Nat)
  | 0, _ => []
  | n + 1, q =>
    match r.find q.bol q.rest with
    | none => []
    | some (s, e) =>
      (len - s.rest.length, len - e.rest.length) :: Regex.findAllIndex r len n e

/-! ## utils.go -/

/-- The pattern `(?m)^---\r?\n(\s*\r?\n)?`. -/
def yamlPattern : Regex :=
  .seq .bol (.seq (.lit DASH) (.seq (.lit DASH) (.seq (.lit DASH)
    (.seq (.opt (.lit CR)) (.seq (.lit LF)
      (.opt (.seq (.star (.cls isSpace)) (.seq (.opt (.lit CR)) (.lit LF)))))))))

/-- The function `detectFrontmatter`: the start of the first match and the end
of the second one, or `(-1, -1)` when there are fewer than two matches. -/
def detectFrontmatter (c : List Byte) : Int × Int :=
  match yamlPattern.findAllIndex c.length 2 ⟨true, c⟩ with
  | m0 :: m1 :: _ => ((m0.1 : Int), (m1.2 : Int))
  | _ => (-1, -1)

/-- The function `RemoveFrontmatter`. -/
def RemoveFrontmatter (content : List Byte) : List Byte :=
  let frontmatterBoundaries := detectFrontmatter content
  if frontmatterBoundaries.1 = 0 then content.drop frontmatterBoundaries.2.toNat
  else content

/-! ## Reading of the frontmatter claims -/

/-- Whether offset `p` of `c` is a line start: offset 0, or just after a line feed. -/
def lineStartAt (c : List Byte) (p : Nat) : Bool :=
  p == 0 || c.get? (p - 1) == some LF

/-- A delimiter line starts at offset `p`: `p` is a line start and the bytes
there are `---`, an optional carriage return, and a line feed.  The value is
the offset just after that line feed. -/
def delimLineEnd (c : List Byte) (p : Nat) : Option Nat :=
  if lineStartAt c p then
    if [DASH, DASH, DASH, LF].isPrefixOf (c.drop p) then some (p + 4)
    else if [DASH, DASH, DASH, CR, LF].isPrefixOf (c.drop p) then some (p + 5)
    else none
  else none

/-- The bytes after the last line feed of the leading run of whitespace, when
that run holds a line feed. -/
def skipBlank? : List Byte → Option (List Byte)
  | [] => none
  | b :: t =>
    if isSpace b then
      match skipBlank? t with
      | some r => some r
      | none => if b = LF then some t else none
    else none

/-- Removal of the leading blank lines: the longest prefix that is whitespace
only and ends in a line feed is dropped. -/
def dropBlankLines (t : List Byte) : List Byte :=
  (skipBlank? t).getD t

/-- The bytes of an ASCII string. -/
def bytes (s : String) : List Byte := s.data.map (fun ch => Fin.ofNat ch.toNat)

/-! ## Auxiliary functions for the proofs -/


/-- The bytes after a line terminator `\r?\n` at the head of the input. -/
def eol? : List Byte → Option (List Byte)
  | [] => none
  | c :: t =>
    if c = CR then
      match t with
      | [] => none
      | d :: u => if d = LF then some u else none
    else if c = LF then some t else none

/-- The bytes after a delimiter `---\r?\n` at the head of the input. -/
def delimTail : List Byte → Option (List Byte)
  | a :: b :: c :: r => if a = DASH ∧ b = DASH ∧ c = DASH then eol? r else none
  | _ => none

/-! ## ui.go: data

The types `Config`, `markdown`, `stashModel` and `pagerModel` are declared in
files other than `ui.go`; they are given here with the fields `ui.go` reads or
writes, completed from the data model of the specification. -/

/-- Go `error` values, by their text. -/
abbrev Error := String

/-- What `os.Stat` reports of a path, as far as `newModel` looks at it. -/
structure FileInfo where
  isDir : Bool
  modTime : Nat
deriving DecidableEq

/-- Modelled from the spec: the configuration `Config` is declared in another
file; these are the fields `ui.go` reads. -/
structure Config where
  Path : String := ""
  GlamourStyle : String := "auto"
  ShowAllFiles : Bool := false
  MarkdownExtensions : List String := []
deriving DecidableEq

/-- Modelled from the spec: the type `markdown` is declared in another file; a
document has a local path, a body, a display note, a modification time and a
filter key. -/
structure Markdown where
  localPath : String := ""
  Body : List Byte := []
  Note : String := ""
  Modtime : Nat := 0
  filterValue : String := ""
deriving DecidableEq

/-- A result of the directory walker, `gitcha.SearchResult`. -/
structure SearchResult where
  Path : String
  ModTime : Nat
deriving DecidableEq

/-- The top-level application state, `state`. -/
inductive State where
  | stateShowStash
  | stateShowDocument
deriving DecidableEq

/-- Modelled from the spec: the view state of the list view is declared in
another file; these are the two values `ui.go` names. -/
inductive StashViewState where
  | stashStateReady
  | stashStateLoadingDocument
deriving DecidableEq

/-- Modelled from the spec: the filter state of the list view is declared in
another file; it is browsing unfiltered, editing the filter (`filtering` in
`ui.go`), or showing a committed filter. -/
inductive FilterState where
  | unfiltered
  | filtering
  | filterApplied
deriving DecidableEq

/-- The type `commonModel`. -/
structure CommonModel where
  cfg : Config
  cwd : String := ""
  width : Int := 0
  height : Int := 0
deriving DecidableEq

/-- Modelled from the spec: the list view `stashModel` is declared in another
file; it holds the entries, the filter state and text, the selection, and
whether the discovery has finished. -/
structure StashModel where
  viewState : StashViewState := .stashStateReady
  filterState : FilterState := .unfiltered
  markdowns : List Markdown := []
  filterInput : String := ""
  cursor : Nat := 0
  loaded : Bool := false
deriving DecidableEq

/-- Modelled from the spec: the document view `pagerModel` is declared in
another file; it holds the current document, the rendered content, the scroll
offset, the help flag and the full-repaint flag
(`viewport.HighPerformanceRendering`). -/
structure PagerModel where
  currentDocument : Markdown := {}
  rendered : List Byte := []
  yOffset : Nat := 0
  showHelp : Bool := false
  highPerformanceRendering : Bool := false
deriving DecidableEq

/-- The messages `Update` receives.  A key message is identified by the value
of `msg.String()`; `other` stands for every message `Update` has no case for. -/
inductive Msg where
  | key (k : String)
  | windowSize (width height : Int)
  | initLocalFileSearch (cwd : String) (ch : Nat)
  | fetchedMarkdown (md : Markdown)
  | contentRendered (content : List Byte)
  | localFileSearchFinished
  | foundLocalFile (res : SearchResult)
  | filteredMarkdown (mds : List Markdown)
  | other (tag : Nat)
deriving DecidableEq

/-- A primitive command.  `child` stands for a command built by a sub-model. -/
inductive Atom where
  | spinnerTick
  | quit
  | suspend
  | clearScrollArea
  | findLocalFiles (common : CommonModel)
  | findNextLocalFile (ch : Option Nat)
  | renderWithGlamour (pager : PagerModel) (body : List Byte)
  | filterMarkdowns (stash : StashModel)
  | errCmd (err : Error)
  | child (tag : Nat)
deriving DecidableEq

/-- A `tea.Cmd`: the primitive commands it launches; `nil` is the empty list. -/
abbrev Cmd := List Atom

/-- The function `tea.Batch`. -/
def Batch (cmds : List Cmd) : Cmd := cmds.flatten

/-- The type `model`. -/
structure Model where
  common : CommonModel
  state : State
  fatalErr : Option Error := none
  stash : StashModel
  pager : PagerModel
  localFileFinder : Option Nat := none
deriving DecidableEq

/-- The operating system, the terminal, and the methods of the list view and
of the document view that `ui.go` calls. -/
structure Env where
  /-- The call `os.Stat`. -/
  stat : String → Except Error FileInfo
  /-- The call `os.ReadFile`. -/
  readFile : String → Except Error (List Byte)
  /-- The call `os.Getwd`, its error dropped. -/
  getwd : String
  /-- The call `filepath.EvalSymlinks`, its error dropped. -/
  evalSymlinks : String → String
  /-- The call `te.HasDarkBackground`. -/
  hasDarkBackground : Bool
  newPagerModel : CommonModel → PagerModel
  newStashModel : CommonModel → StashModel
  /-- The method `stashModel.update`. -/
  stashUpdate : CommonModel → StashModel → Msg → StashModel × Cmd
  /-- The method `pagerModel.update`. -/
  pagerUpdate : CommonModel → PagerModel → Msg → PagerModel × Cmd
  /-- The method `pagerModel.unload`. -/
  pagerUnload : PagerModel → PagerModel
  /-- The method `stashModel.shouldSpin`. -/
  shouldSpin : StashModel → Bool
  /-- The method `stashModel.filterApplied`. -/
  filterApplied : StashModel → Bool
  /-- The method `stashModel.shouldUpdateFilter`. -/
  shouldUpdateFilter : StashModel → Bool
  /-- The method `stashModel.setSize`. -/
  stashSetSize : StashModel → Int → Int → StashModel
  /-- The method `pagerModel.setSize`. -/
  pagerSetSize : PagerModel → Int → Int → PagerModel
  /-- The filter key `markdown.buildFilterValue` computes. -/
  filterKey : Markdown → String

/-! ## ui.go: functions -/

/-- The constant `os.PathSeparator` on Unix. -/
def PathSeparator : Char := '/'

/-- The scan of `strings.ReplaceAll` for a non-empty `old`: occurrences are
replaced from left to right without overlap; `skip` counts the bytes of an
occurrence still to pass over. -/
def replaceAllAux (old new : List Char) : Nat → List Char → List Char
  | _, [] => []
  | skip + 1, _ :: t => replaceAllAux old new skip t
  | 0, c :: t =>
    if old.isPrefixOf (c :: t) then new ++ replaceAllAux old new (old.length - 1) t
    else c :: replaceAllAux old new 0 t

/-- The function `strings.ReplaceAll`.  An empty `old` matches before every
character and at the end. -/
def ReplaceAll (s old new : String) : String :=
  if old = "" then String.mk (new.data ++ s.data.flatMap (fun c => c :: new.data))
  else String.mk (replaceAllAux old.data new.data 0 s.data)

/-- The function `stripAbsolutePath`. -/
def stripAbsolutePath (env : Env) (fullPath cwd : String) : String :=
  let fp := env.evalSymlinks fullPath
  let cp := env.evalSymlinks cwd
  ReplaceAll fp (cp ++ String.singleton PathSeparator) ""

/-- The function `localFileToMarkdown`. -/
def localFileToMarkdown (env : Env) (cwd : String) (res : SearchResult) : Markdown :=
  { localPath := res.Path, Note := stripAbsolutePath env res.Path cwd, Modtime := res.ModTime }

/-- Modelled from the spec: `stashModel.addMarkdowns` is declared in another
file; the list view, "on entry-found: append the stub", keeps its entries in
insertion order. -/
def addMarkdowns (s : StashModel) (md : Markdown) : StashModel :=
  { s with markdowns := s.markdowns ++ [md] }

/-- Modelled from the spec: `markdown.buildFilterValue` is declared in another
file; it computes "that single entry's filter key" and stores it in the entry. -/
def buildFilterValue (env : Env) (md : Markdown) : Markdown :=
  { md with filterValue := env.filterKey md }

/-- The constant `styles.AutoStyle`. -/
def AutoStyle : String := "auto"

/-- The constant `styles.DarkStyle`. -/
def DarkStyle : String := "dark"

/-- The constant `styles.LightStyle`. -/
def LightStyle : String := "light"

/-- The function `newModel`. -/
def newModel (env : Env) (cfg : Config) (content : List Byte) : Model :=
  let cfg : Config :=
    if cfg.GlamourStyle = AutoStyle then
      if env.hasDarkBackground then { cfg with GlamourStyle := DarkStyle }
      else { cfg with GlamourStyle := LightStyle }
    else cfg
  let common : CommonModel := { cfg := cfg }
  let m : Model :=
    { common := common
      state := .stateShowStash
      pager := env.newPagerModel common
      stash := env.newStashModel common }
  let path := cfg.Path
  if path = "" ∧ content ≠ [] then
    { m with
      state := .stateShowDocument
      pager := { m.pager with currentDocument := { Body := content } } }
  else
    let path := if path = "" then "." else path
    match env.stat path with
    | .error err => { m with fatalErr := some err }
    | .ok info =>
      if info.isDir then { m with state := .stateShowStash }
      else
        let cwd := env.getwd
        { m with
          state := .stateShowDocument
          pager := { m.pager with
            currentDocument :=
              { localPath := path
                Note := stripAbsolutePath env path cwd
                Modtime := info.modTime } } }

/-- The method `model.Init`. -/
def Init (env : Env) (m : Model) : Cmd :=
  let cmds : List Cmd := [[Atom.spinnerTick]]
  match m.state with
  | .stateShowStash => Batch (cmds ++ [[Atom.findLocalFiles m.common]])
  | .stateShowDocument =>
    match env.readFile m.common.cfg.Path with
    | .error err => [Atom.errCmd err]
    | .ok content =>
      let body := RemoveFrontmatter content
      Batch (cmds ++ [[Atom.renderWithGlamour m.pager body]])

/-- The method `model.unloadDocument`: the model after it, and the commands
it returns. -/
def unloadDocument (env : Env) (m : Model) : Model × List Cmd :=
  let m := { m with state := .stateShowStash }
  let m := { m with stash := { m.stash with viewState := .stashStateReady } }
  let m := { m with pager := env.pagerUnload m.pager }
  let m := { m with pager := { m.pager with showHelp := false } }
  let batch : List Cmd := []
  let batch := if m.pager.highPerformanceRendering then batch ++ [[Atom.clearScrollArea]] else batch
  let batch := if !env.shouldSpin m.stash then batch ++ [[Atom.spinnerTick]] else batch
  (m, batch)

/-- The end of `Update`, under the comment "Process children": the message
goes to the active view and its command joins `cmds`. -/
def processChildren (env : Env) (m : Model) (msg : Msg) (cmds : List Cmd) : Model × Cmd :=
  match m.state with
  | .stateShowStash =>
    let r := env.stashUpdate m.common m.stash msg
    ({ m with stash := r.1 }, Batch (cmds ++ [r.2]))
  | .stateShowDocument =>
    let r := env.pagerUpdate m.common m.pager msg
    ({ m with pager := r.1 }, Batch (cmds ++ [r.2]))

/-- The step `m.stash, cmd = m.stash.update(msg); return m, cmd`. -/
def forwardToStash (env : Env) (m : Model) (msg : Msg) : Model × Cmd :=
  let r := env.stashUpdate m.common m.stash msg
  ({ m with stash := r.1 }, r.2)

/-- The method `model.Update`. -/
def Update (env : Env) (m : Model) (msg : Msg) : Model × Cmd :=
  match m.fatalErr, msg with
  | some _, .key _ => (m, [Atom.quit])
  | _, .key k =>
    if k = "esc" then
      if m.state = .stateShowDocument ∨ m.stash.viewState = .stashStateLoadingDocument then
        let r := unloadDocument env m
        (r.1, Batch r.2)
      else processChildren env m msg []
    else if k = "r" then
      if m.state = .stateShowStash then
        if m.stash.filterState = .filtering then forwardToStash env m msg
        else
          let m := { m with stash := { m.stash with markdowns := [] } }
          (m, Init env m)
      else processChildren env m msg []
    else if k = "q" then
      if m.state = .stateShowStash ∧ m.stash.filterState = .filtering then
        forwardToStash env m msg
      else (m, [Atom.quit])
    else if k = "left" ∨ k = "h" ∨ k = "delete" then
      if m.state = .stateShowDocument then
        let r := unloadDocument env m
        (r.1, Batch ([] ++ r.2))
      else processChildren env m msg []
    else if k = "ctrl+z" then (m, [Atom.suspend])
    else if k = "ctrl+c" then (m, [Atom.quit])
    else processChildren env m msg []
  | _, .windowSize w h =>
    let m := { m with common := { m.common with width := w, height := h } }
    let m := { m with stash := env.stashSetSize m.stash w h }
    let m := { m with pager := env.pagerSetSize m.pager w h }
    processChildren env m msg []
  | _, .initLocalFileSearch cwd ch =>
    let m := { m with localFileFinder := some ch }
    let m := { m with common := { m.common with cwd := cwd } }
    processChildren env m msg [[Atom.findNextLocalFile m.localFileFinder]]
  | _, .fetchedMarkdown md =>
    let m := { m with pager := { m.pager with currentDocument := md } }
    let body := RemoveFrontmatter md.Body
    processChildren env m msg [[Atom.renderWithGlamour m.pager body]]
  | _, .contentRendered _ =>
    let m := { m with state := .stateShowDocument }
    processChildren env m msg []
  | _, .localFileSearchFinished => forwardToStash env m msg
  | _, .foundLocalFile res =>
    let newMd := localFileToMarkdown env m.common.cwd res
    let stash := addMarkdowns m.stash newMd
    -- `newMd` is a pointer the list shares: building its filter value
    -- changes the entry just added
    let stash :=
      if env.filterApplied stash then addMarkdowns m.stash (buildFilterValue env newMd)
      else stash
    let m := { m with stash := stash }
    let cmds : List Cmd :=
      if env.shouldUpdateFilter m.stash then [[Atom.filterMarkdowns m.stash]] else []
    let cmds := cmds ++ [[Atom.findNextLocalFile m.localFileFinder]]
    processChildren env m msg cmds
  | _, .filteredMarkdown _ =>
    if m.state = .stateShowDocument then
      let r := env.stashUpdate m.common m.stash msg
      let m := { m with stash := r.1 }
      processChildren env m msg [r.2]
    else processChildren env m msg []
  | _, .other _ => processChildren env m msg []

/-- The model after a sequence of messages, each handled by `Update`. -/
def runMsgs (env : Env) (m : Model) (msgs : List Msg) : Model :=
  msgs.foldl (fun m msg => (Update env m msg).1) m

/-- The number of discovery commands (`findLocalFiles`) in a command. -/
def countDiscovery (cmd : Cmd) : Nat :=
  cmd.countP (fun a => match a with
    | .findLocalFiles _ => true
    | _ => false)

/-- Whether a message comes from a discovery run: the start of the run
(`initLocalFileSearchMsg`) or an entry found (`foundLocalFileMsg`). -/
def isDiscoveryMsg : Msg → Bool
  | .initLocalFileSearch _ _ => true
  | .foundLocalFile _ => true
  | _ => false

/-- The paths that the entry-found messages of a sequence deliver, in order. -/
def foundPaths : List Msg → List String
  | [] => []
  | .foundLocalFile res :: rest => res.Path :: foundPaths rest
  | _ :: rest => foundPaths rest

/-- The paths of the entries the list view holds, in order. -/
def heldPaths (m : Model) : List String :=
  m.stash.markdowns.map (fun md => md.localPath)

/-! ## A sample environment -/

/-- A sample environment, for the concrete instances below: the working
directory `/home/u` holds the directory `docs` and the file `notes/today.md`;
no path has a symbolic link; the sub-models answer every message with no
command; the list view animates while it loads or opens a document. -/
def sampleEnv : Env where
  stat := fun p =>
    if p = "." ∨ p = "docs" then .ok ⟨true, 0⟩
    else if p = "notes/today.md" then .ok ⟨false, 7⟩
    else .error "no such file or directory"
  readFile := fun p =>
    if p = "notes/today.md" then .ok [DASH, DASH, DASH, LF, DASH, DASH, DASH, LF, 35]
    else .error "no such file or directory"
  getwd := "/home/u"
  evalSymlinks := fun p => p
  hasDarkBackground := true
  newPagerModel := fun _ => {}
  newStashModel := fun _ => {}
  stashUpdate := fun _ s _ => (s, [])
  pagerUpdate := fun _ p _ => (p, [])
  pagerUnload := fun p => { p with rendered := [], yOffset := 0 }
  shouldSpin := fun s => !s.loaded || s.viewState == .stashStateLoadingDocument
  filterApplied := fun s => s.filterState != .unfiltered
  shouldUpdateFilter := fun s => s.filterState == .filterApplied
  stashSetSize := fun s _ _ => s
  pagerSetSize := fun p _ _ => p
  filterKey := fun md => md.Note

/-- A sample model showing the list, with the given list view. -/
def listModel (stash : StashModel) : Model :=
  { common := { cfg := {} }, state := .stateShowStash, stash := stash, pager := {} }

/-- A sample model showing a document, with the given list view. -/
def documentModel (stash : StashModel) : Model :=
  { common := { cfg := { Path := "notes/today.md" } }, state := .stateShowDocument,
    stash := stash, pager := { currentDocument := { localPath := "notes/today.md" } } }

/-! ## Lemmas on the pattern -/

theorem cr_ne_lf : CR ≠ LF := by decide

theorem lf_ne_cr : LF ≠ CR := by decide

theorem eol_run (b : Bool) (rest : List Byte) :
    (Regex.seq (.opt (.lit CR)) (.lit LF)).run ⟨b, rest⟩
      = (eol? rest).toList.map (fun t => (⟨true, t⟩ : Pos)) := by
  cases rest with
  | nil => simp [Regex.run, eol?]
  | cons c t =>
    by_cases h1 : c = CR
    · subst h1
      cases t with
      | nil => simp [Regex.run, eol?, cr_ne_lf]
      | cons d u =>
        by_cases h2 : d = LF
        · subst h2; simp [Regex.run, eol?, cr_ne_lf]
        · simp [Regex.run, eol?, cr_ne_lf, h2]
    · by_cases h2 : c = LF
      · subst h2; simp [Regex.run, eol?, lf_ne_cr]
      · simp [Regex.run, eol?, h1, h2]

theorem skipBlank_lf (t : List Byte) : (skipBlank? (LF :: t)).isSome = true := by
  simp only [skipBlank?]
  have : isSpace LF = true := by decide
  simp only [this, if_true]
  cases skipBlank? t <;> simp

theorem blank_run_head (t : List Byte) : ∀ (n : Nat) (b : Bool), t.length ≤ n →
    ((starRun (fun q => (Regex.cls isSpace).run q) n ⟨b, t⟩).flatMap
        (fun q => (Regex.seq (.opt (.lit CR)) (.lit LF)).run q)).head?
      = (skipBlank? t).map (fun r => (⟨true, r⟩ : Pos)) := by
  induction t with
  | nil =>
    intro n b _
    cases n <;> simp [starRun, Regex.run, skipBlank?, eol_run, eol?]
  | cons c u ih =>
    intro n b hn
    cases n with
    | zero => simp at hn
    | succ k =>
      have hk : u.length ≤ k := by simpa using hn
      by_cases hs : isSpace c = true
      · have h1 : starRun (fun q => (Regex.cls isSpace).run q) (k + 1) ⟨b, c :: u⟩
            = starRun (fun q => (Regex.cls isSpace).run q) k ⟨c == LF, u⟩ ++ [⟨b, c :: u⟩] := by
          simp [starRun, Regex.run, hs]
        rw [h1, List.flatMap_append, List.head?_append, ih k (c == LF) hk]
        simp only [List.flatMap_singleton, eol_run, skipBlank?, hs, if_true]
        cases hsk : skipBlank? u with
        | some r => simp
        | none =>
          by_cases h2 : c = LF
          · subst h2; simp [eol?, lf_ne_cr]
          · by_cases h3 : c = CR
            · subst h3
              cases u with
              | nil => simp [eol?, cr_ne_lf]
              | cons d v =>
                by_cases h4 : d = LF
                · subst h4
                  have := skipBlank_lf v
                  rw [hsk] at this
                  simp at this
                · simp [eol?, h4, cr_ne_lf]
            · simp [eol?, h2, h3]
      · have hs' : isSpace c = false := by simpa using hs
        have h1 : starRun (fun q => (Regex.cls isSpace).run q) (k + 1) ⟨b, c :: u⟩
            = [⟨b, c :: u⟩] := by
          simp [starRun, Regex.run, hs']
        have h2 : c ≠ LF := by
          intro h; subst h; exact absurd hs' (by decide)
        have h3 : c ≠ CR := by
          intro h; subst h; exact absurd hs' (by decide)
        rw [h1]
        simp [eol_run, skipBlank?, hs', eol?, h2, h3]

theorem eol_seq_run (g : Regex) (b : Bool) (rest : List Byte) :
    (Regex.seq (.opt (.lit CR)) (.seq (.lit LF) g)).run ⟨b, rest⟩
      = match eol? rest with
        | some t => g.run ⟨true, t⟩
        | none => [] := by
  cases rest with
  | nil => simp [Regex.run, eol?]
  | cons c t =>
    by_cases h1 : c = CR
    · subst h1
      cases t with
      | nil => simp [Regex.run, eol?, cr_ne_lf]
      | cons d u =>
        by_cases h2 : d = LF
        · subst h2; simp [Regex.run, eol?, cr_ne_lf]
        · simp [Regex.run, eol?, cr_ne_lf, h2]
    · by_cases h2 : c = LF
      · subst h2; simp [Regex.run, eol?, lf_ne_cr]
      · simp [Regex.run, eol?, h1, h2]

theorem lit_seq_run (g : Regex) (x : Byte) (b : Bool) (rest : List Byte) :
    (Regex.seq (.lit x) g).run ⟨b, rest⟩
      = match rest with
        | [] => []
        | c :: t => if c = x then g.run ⟨c == LF, t⟩ else [] := by
  cases rest with
  | nil => simp [Regex.run]
  | cons c t =>
    by_cases h : c = x
    · simp [Regex.run, h]
    · simp [Regex.run, h]

theorem delim_run (g : Regex) (b : Bool) (rest : List Byte) :
    (Regex.seq .bol (.seq (.lit DASH) (.seq (.lit DASH) (.seq (.lit DASH)
        (.seq (.opt (.lit CR)) (.seq (.lit LF) g)))))).run ⟨b, rest⟩
      = if b then
          match delimTail rest with
          | some t => g.run ⟨true, t⟩
          | none => []
        else [] := by
  cases b with
  | false => simp [Regex.run]
  | true =>
    have hb : (Regex.seq .bol (.seq (.lit DASH) (.seq (.lit DASH) (.seq (.lit DASH)
        (.seq (.opt (.lit CR)) (.seq (.lit LF) g)))))).run ⟨true, rest⟩
        = (Regex.seq (.lit DASH) (.seq (.lit DASH) (.seq (.lit DASH)
        (.seq (.opt (.lit CR)) (.seq (.lit LF) g))))).run ⟨true, rest⟩ := by
      simp [Regex.run]
    rw [hb]
    simp only [if_true]
    match rest with
    | [] => simp [lit_seq_run, delimTail]
    | [x] => by_cases h : x = DASH <;> simp [lit_seq_run, delimTail, h]
    | [x, y] =>
      by_cases h : x = DASH <;> by_cases h' : y = DASH <;> simp [lit_seq_run, delimTail, h, h']
    | x :: y :: z :: r =>
      by_cases h : x = DASH <;> by_cases h' : y = DASH <;> by_cases h'' : z = DASH <;>
        simp [lit_seq_run, delimTail, h, h', h'', eol_seq_run]

theorem group_run_head (b : Bool) (t : List Byte) :
    ((Regex.opt (.seq (.star (.cls isSpace)) (.seq (.opt (.lit CR)) (.lit LF)))).run ⟨b, t⟩).head?
      = some (match skipBlank? t with
              | some r => ⟨true, r⟩
              | none => ⟨b, t⟩) := by
  have h := blank_run_head t t.length b (Nat.le_refl _)
  have hrun : (Regex.opt (.seq (.star (.cls isSpace)) (.seq (.opt (.lit CR)) (.lit LF)))).run ⟨b, t⟩
      = ((starRun (fun q => (Regex.cls isSpace).run q) t.length ⟨b, t⟩).flatMap
          (fun q => (Regex.seq (.opt (.lit CR)) (.lit LF)).run q)) ++ [⟨b, t⟩] := by
    simp [Regex.run]
  rw [hrun, List.head?_append, h]
  cases skipBlank? t <;> simp

theorem yaml_run_head (b : Bool) (rest : List Byte) :
    (yamlPattern.run ⟨b, rest⟩).head?
      = if b then (delimTail rest).map (fun t => (⟨true, dropBlankLines t⟩ : Pos)) else none := by
  unfold yamlPattern
  rw [delim_run]
  cases b with
  | false => simp
  | true =>
    simp only [if_true]
    cases hd : delimTail rest with
    | none => simp
    | some t =>
      simp only [group_run_head, Option.map_some', dropBlankLines]
      cases skipBlank? t <;> simp

/-! ## Lemmas on the search -/

theorem find_of_head {r : Regex} {b : Bool} {rest : List Byte} {e : Pos}
    (h : (r.run ⟨b, rest⟩).head? = some e) : r.find b rest = some (⟨b, rest⟩, e) := by
  cases rest <;> simp [Regex.find, h]

theorem find_of_none_cons {r : Regex} {b : Bool} {c : Byte} {t : List Byte}
    (h : (r.run ⟨b, c :: t⟩).head? = none) :
    r.find b (c :: t) = r.find (c == LF) t := by
  simp [Regex.find, h]

theorem find_of_none_nil {r : Regex} {b : Bool}
    (h : (r.run ⟨b, []⟩).head? = none) : r.find b [] = none := by
  simp [Regex.find, h]

theorem find_start_len (r : Regex) : ∀ (rest : List Byte) (b : Bool) (s e : Pos),
    r.find b rest = some (s, e) → s.rest.length ≤ rest.length := by
  intro rest
  induction rest with
  | nil =>
    intro b s e h
    cases hh : (r.run ⟨b, []⟩).head? with
    | none => simp [Regex.find, hh] at h
    | some e' =>
      simp [Regex.find, hh] at h
      rw [← h.1]
  | cons c t ih =>
    intro b s e h
    cases hh : (r.run ⟨b, c :: t⟩).head? with
    | none =>
      rw [find_of_none_cons hh] at h
      have := ih _ _ _ h
      simp only [List.length_cons]
      omega
    | some e' =>
      rw [find_of_head hh] at h
      simp at h
      rw [← h.1]

theorem delimTail_eq_some {l t : List Byte} :
    delimTail l = some t ↔
      l = DASH :: DASH :: DASH :: LF :: t ∨ l = DASH :: DASH :: DASH :: CR :: LF :: t := by
  rcases l with _ | ⟨a, _ | ⟨b, _ | ⟨c, r⟩⟩⟩
  · simp [delimTail]
  · simp [delimTail]
  · simp [delimTail]
  · by_cases h : a = DASH ∧ b = DASH ∧ c = DASH
    · obtain ⟨rfl, rfl, rfl⟩ := h
      simp only [delimTail, and_self, if_true]
      rcases r with _ | ⟨d, u⟩
      · simp [eol?]
      · by_cases h1 : d = CR
        · subst h1
          rcases u with _ | ⟨e, v⟩
          · simp [eol?, cr_ne_lf]
          · by_cases h2 : e = LF
            · subst h2; simp [eol?, cr_ne_lf]
            · simp [eol?, cr_ne_lf, h2]
        · by_cases h2 : d = LF
          · subst h2; simp [eol?, lf_ne_cr]
          · simp [eol?, h1, h2]
    · simp only [delimTail, h, if_false]
      constructor
      · intro h'; cases h'
      · intro h'
        exfalso
        apply h
        rcases h' with h' | h' <;> simp at h' <;> exact ⟨h'.1, h'.2.1, h'.2.2.1⟩

theorem delimLineEnd_eq (c : List Byte) (p : Nat) :
    delimLineEnd c p
      = if lineStartAt c p then (delimTail (c.drop p)).map (fun t => c.length - t.length)
        else none := by
  unfold delimLineEnd
  by_cases hl : lineStartAt c p = true
  · simp only [hl, if_true]
    cases hd : delimTail (c.drop p) with
    | some t =>
      have hlen : (c.drop p).length = c.length - p := List.length_drop p c
      rcases delimTail_eq_some.1 hd with h | h
      · rw [h] at hlen
        rw [h]
        simp only [List.length_cons] at hlen
        have : c.length - t.length = p + 4 := by omega
        simp [List.isPrefixOf, this]
      · rw [h] at hlen
        rw [h]
        simp only [List.length_cons] at hlen
        have : c.length - t.length = p + 5 := by omega
        simp [List.isPrefixOf, this, cr_ne_lf, lf_ne_cr]
    | none =>
      have h1 : [DASH, DASH, DASH, LF].isPrefixOf (c.drop p) = false := by
        cases hp : [DASH, DASH, DASH, LF].isPrefixOf (c.drop p) with
        | false => rfl
        | true =>
          obtain ⟨t, ht⟩ := List.isPrefixOf_iff_prefix.1 hp
          have := (@delimTail_eq_some (c.drop p) t).2 (Or.inl (by simpa using ht.symm))
          rw [hd] at this
          cases this
      have h2 : [DASH, DASH, DASH, CR, LF].isPrefixOf (c.drop p) = false := by
        cases hp : [DASH, DASH, DASH, CR, LF].isPrefixOf (c.drop p) with
        | false => rfl
        | true =>
          obtain ⟨t, ht⟩ := List.isPrefixOf_iff_prefix.1 hp
          have := (@delimTail_eq_some (c.drop p) t).2 (Or.inr (by simpa using ht.symm))
          rw [hd] at this
          cases this
      simp [h1, h2]
  · simp [hl]

theorem drop_of_suffix {s c : List Byte} (h : s <:+ c) : c.drop (c.length - s.length) = s := by
  obtain ⟨pre, rfl⟩ := h
  simp

theorem delimTail_suffix {l t : List Byte} (h : delimTail l = some t) : t <:+ l := by
  rcases delimTail_eq_some.1 h with h | h
  · exact ⟨[DASH, DASH, DASH, LF], by rw [h]; rfl⟩
  · exact ⟨[DASH, DASH, DASH, CR, LF], by rw [h]; rfl⟩

theorem lineStartAt_zero (c : List Byte) : lineStartAt c 0 = true := by
  simp [lineStartAt]

theorem lineStartAt_succ (cs : List Byte) (i : Nat) (hi : i < cs.length) :
    lineStartAt cs (i + 1) = (cs[i] == LF) := by
  simp [lineStartAt, List.getElem?_eq_getElem hi]

theorem yaml_head_at (c : List Byte) (i : Nat) :
    (yamlPattern.run ⟨lineStartAt c i, c.drop i⟩).head?
      = (delimLineEnd c i).map (fun e => (⟨true, dropBlankLines (c.drop e)⟩ : Pos)) := by
  rw [yaml_run_head, delimLineEnd_eq]
  by_cases hl : lineStartAt c i = true
  · simp only [hl, if_true]
    cases hd : delimTail (c.drop i) with
    | none => simp
    | some t =>
      have hsuf : t <:+ c := (delimTail_suffix hd).trans (List.drop_suffix i c)
      simp [drop_of_suffix hsuf]
  · simp [hl]

theorem delimLineEnd_bounds {c : List Byte} {p e : Nat} (h : delimLineEnd c p = some e) :
    lineStartAt c p = true ∧
      ((e = p + 4 ∧ c.drop p = DASH :: DASH :: DASH :: LF :: c.drop e) ∨
       (e = p + 5 ∧ c.drop p = DASH :: DASH :: DASH :: CR :: LF :: c.drop e)) ∧
      e ≤ c.length := by
  rw [delimLineEnd_eq] at h
  by_cases hl : lineStartAt c p = true
  · simp only [hl, if_true] at h
    cases hd : delimTail (c.drop p) with
    | none => simp [hd] at h
    | some t =>
      simp only [hd, Option.map_some', Option.some.injEq] at h
      have hsuf : t <:+ c := (delimTail_suffix hd).trans (List.drop_suffix p c)
      have ht : c.drop e = t := by rw [← h]; exact drop_of_suffix hsuf
      have hlen : (c.drop p).length = c.length - p := List.length_drop p c
      refine ⟨hl, ?_, by omega⟩
      rcases delimTail_eq_some.1 hd with h' | h'
      · left
        rw [h'] at hlen
        simp only [List.length_cons] at hlen
        exact ⟨by omega, by rw [ht]; exact h'⟩
      · right
        rw [h'] at hlen
        simp only [List.length_cons] at hlen
        exact ⟨by omega, by rw [ht]; exact h'⟩
  · simp [hl] at h

theorem find_at (c : List Byte) (q e : Nat) (hq : delimLineEnd c q = some e) :
    ∀ (d i : Nat), i + d = q → (∀ p, i ≤ p → p < q → delimLineEnd c p = none) →
      yamlPattern.find (lineStartAt c i) (c.drop i)
        = some (⟨lineStartAt c q, c.drop q⟩, ⟨true, dropBlankLines (c.drop e)⟩) := by
  intro d
  induction d with
  | zero =>
    intro i hi _
    have : i = q := by omega
    subst this
    apply find_of_head
    rw [yaml_head_at, hq]
    rfl
  | succ d ih =>
    intro i hi hnone
    have hb := delimLineEnd_bounds hq
    have hilt : i < c.length := by omega
    have h0 : delimLineEnd c i = none := hnone i (Nat.le_refl _) (by omega)
    have hh : (yamlPattern.run ⟨lineStartAt c i, c.drop i⟩).head? = none := by
      rw [yaml_head_at, h0]; rfl
    rw [List.drop_eq_getElem_cons hilt] at hh ⊢
    rw [find_of_none_cons hh, ← lineStartAt_succ c i hilt]
    exact ih (i + 1) (by omega) (fun p hp hpq => hnone p (by omega) hpq)

theorem find_none (c : List Byte) :
    ∀ (n i : Nat), c.length ≤ i + n → (∀ p, i ≤ p → delimLineEnd c p = none) →
      yamlPattern.find (lineStartAt c i) (c.drop i) = none := by
  intro n
  induction n with
  | zero =>
    intro i hi hnone
    have hh : (yamlPattern.run ⟨lineStartAt c i, c.drop i⟩).head? = none := by
      rw [yaml_head_at, hnone i (Nat.le_refl _)]; rfl
    rw [List.drop_eq_nil_of_le (by omega)] at hh ⊢
    exact find_of_none_nil hh
  | succ n ih =>
    intro i hi hnone
    have hh : (yamlPattern.run ⟨lineStartAt c i, c.drop i⟩).head? = none := by
      rw [yaml_head_at, hnone i (Nat.le_refl _)]; rfl
    by_cases hilt : i < c.length
    · rw [List.drop_eq_getElem_cons hilt] at hh ⊢
      rw [find_of_none_cons hh, ← lineStartAt_succ c i hilt]
      exact ih (i + 1) (by omega) (fun p hp => hnone p (by omega))
    · rw [List.drop_eq_nil_of_le (by omega)] at hh ⊢
      exact find_of_none_nil hh

theorem skipBlank_spec : ∀ (t r : List Byte), skipBlank? t = some r →
    ∃ ws, t = ws ++ r ∧ (∀ x ∈ ws, isSpace x = true) ∧ ws.getLast? = some LF := by
  intro t
  induction t with
  | nil => intro r h; simp [skipBlank?] at h
  | cons b u ih =>
    intro r h
    by_cases hs : isSpace b = true
    · simp only [skipBlank?, hs, if_true] at h
      cases hu : skipBlank? u with
      | some r' =>
        simp only [hu, Option.some.injEq] at h
        subst h
        obtain ⟨ws, h1, h2, h3⟩ := ih r' hu
        refine ⟨b :: ws, by rw [h1]; rfl, ?_, ?_⟩
        · intro x hx
          rcases List.mem_cons.1 hx with hx | hx
          · rw [hx]; exact hs
          · exact h2 x hx
        · cases ws with
          | nil => simp at h3
          | cons w ws' => rw [List.getLast?_cons_cons]; exact h3
      | none =>
        simp only [hu] at h
        by_cases hb : b = LF
        · simp only [hb, if_true, Option.some.injEq] at h
          subst h
          exact ⟨[b], rfl, by intro x hx; simp at hx; rw [hx]; exact hs, by simp [hb]⟩
        · simp [hb] at h
    · simp [skipBlank?, hs] at h

theorem dropBlank_pos (cs : List Byte) (e0 : Nat) (he : lineStartAt cs e0 = true)
    (hle : e0 ≤ cs.length) :
    ∃ i1, e0 ≤ i1 ∧ i1 ≤ cs.length ∧ dropBlankLines (cs.drop e0) = cs.drop i1 ∧
      lineStartAt cs i1 = true ∧
      ∀ j, e0 ≤ j → j < i1 → ∃ x, cs.get? j = some x ∧ isSpace x = true := by
  cases hsk : skipBlank? (cs.drop e0) with
  | none =>
    refine ⟨e0, Nat.le_refl _, hle, by simp [dropBlankLines, hsk], he, ?_⟩
    intro j h1 h2; omega
  | some r =>
    obtain ⟨ws, h1, h2, h3⟩ := skipBlank_spec _ _ hsk
    have hlen : (cs.drop e0).length = cs.length - e0 := List.length_drop e0 cs
    rw [h1, List.length_append] at hlen
    have hwpos : 0 < ws.length := by
      cases ws with
      | nil => simp at h3
      | cons _ _ => simp
    have hget : ∀ k, k < ws.length → cs.get? (e0 + k) = ws.get? k := by
      intro k hk
      have : (cs.drop e0).get? k = cs.get? (e0 + k) := by
        simp [List.getElem?_drop]
      rw [← this, h1]
      simp [List.getElem?_append_left hk]
    refine ⟨e0 + ws.length, by omega, by omega, ?_, ?_, ?_⟩
    · simp only [dropBlankLines, hsk, Option.getD_some]
      rw [← List.drop_drop, h1]
      simp
    · have hk := hget (ws.length - 1) (by omega)
      have hl : ws.get? (ws.length - 1) = some LF := by
        rw [← h3]; simp [List.getLast?_eq_getElem?]
      rw [hl] at hk
      have hidx : e0 + ws.length - 1 = e0 + (ws.length - 1) := by omega
      simp only [lineStartAt, hidx, hk]
      simp
    · intro j hj1 hj2
      have hk := hget (j - e0) (by omega)
      have hidx : e0 + (j - e0) = j := by omega
      rw [hidx] at hk
      have hlt : j - e0 < ws.length := by omega
      refine ⟨ws[j - e0], ?_, h2 _ (List.getElem_mem _)⟩
      rw [hk]
      simp [List.getElem?_eq_getElem hlt]

theorem dropBlankLines_suffix (t : List Byte) : dropBlankLines t <:+ t := by
  cases hsk : skipBlank? t with
  | none => simp [dropBlankLines, hsk]
  | some r =>
    obtain ⟨ws, h1, _, _⟩ := skipBlank_spec _ _ hsk
    simp only [dropBlankLines, hsk, Option.getD_some]
    exact ⟨ws, h1.symm⟩

/-! ## Lemmas on `RemoveFrontmatter` -/

theorem removeFrontmatter_of_find_none {c : List Byte}
    (h : yamlPattern.find true c = none) : RemoveFrontmatter c = c := by
  simp [RemoveFrontmatter, detectFrontmatter, Regex.findAllIndex, h]

theorem removeFrontmatter_of_second_none {c : List Byte} {s e : Pos}
    (h1 : yamlPattern.find true c = some (s, e))
    (h2 : yamlPattern.find e.bol e.rest = none) : RemoveFrontmatter c = c := by
  simp [RemoveFrontmatter, detectFrontmatter, Regex.findAllIndex, h1, h2]

theorem removeFrontmatter_of_late_start {c : List Byte} {s e : Pos}
    (h1 : yamlPattern.find true c = some (s, e))
    (hs : s.rest.length < c.length) : RemoveFrontmatter c = c := by
  cases h2 : yamlPattern.find e.bol e.rest with
  | none => exact removeFrontmatter_of_second_none h1 h2
  | some se =>
    obtain ⟨s2, e2⟩ := se
    have hne : ¬ ((c.length - s.rest.length : Nat) : Int) = 0 := by omega
    simp [RemoveFrontmatter, detectFrontmatter, Regex.findAllIndex, h1, h2, hne]

theorem removeFrontmatter_of_two {c : List Byte} {s e s2 e2 : Pos}
    (h1 : yamlPattern.find true c = some (s, e)) (hs : s.rest = c)
    (h2 : yamlPattern.find e.bol e.rest = some (s2, e2)) :
    RemoveFrontmatter c = c.drop (c.length - e2.rest.length) := by
  simp [RemoveFrontmatter, detectFrontmatter, Regex.findAllIndex, h1, h2, hs]

theorem delim_after_first {c : List Byte} {e0 q e : Nat}
    (h0 : delimLineEnd c 0 = some e0) (hq0 : 0 < q) (hq : delimLineEnd c q = some e) :
    e0 ≤ q := by
  by_contra hlt
  have hb0 := delimLineEnd_bounds h0
  have hbq := delimLineEnd_bounds hq
  have hls := hbq.1
  have hq1 : q - 1 + 1 = q := by omega
  simp only [lineStartAt] at hls
  have hq' : (q == 0) = false := by simp; omega
  simp only [hq', Bool.false_or, beq_iff_eq] at hls
  rcases hb0.2.1 with ⟨he, hd⟩ | ⟨he, hd⟩
  · simp only [List.drop_zero] at hd
    rw [hd] at hls
    have : q = 1 ∨ q = 2 ∨ q = 3 := by omega
    rcases this with h | h | h <;> subst h <;> simp at hls <;> exact absurd hls (by decide)
  · simp only [List.drop_zero] at hd
    rw [hd] at hls
    have : q = 1 ∨ q = 2 ∨ q = 3 ∨ q = 4 := by omega
    rcases this with h | h | h | h <;> subst h <;> simp at hls <;> exact absurd hls (by decide)

theorem delimLineEnd_none_of_ge {c : List Byte} {p : Nat} (h : c.length ≤ p) :
    delimLineEnd c p = none := by
  cases hd : delimLineEnd c p with
  | none => rfl
  | some e =>
    have hb := delimLineEnd_bounds hd
    rcases hb.2.1 with ⟨he, _⟩ | ⟨he, _⟩ <;> omega

theorem delim_end_lineStart {c : List Byte} {p e : Nat} (h : delimLineEnd c p = some e) :
    lineStartAt c e = true := by
  have hb := delimLineEnd_bounds h
  have hget : ∀ k, (c.drop p).get? k = c.get? (p + k) := by
    intro k; simp [List.getElem?_drop]
  rcases hb.2.1 with ⟨he, hd⟩ | ⟨he, hd⟩
  · have h3 := hget 3
    rw [hd] at h3
    subst he
    simp only [lineStartAt]
    have : p + 4 - 1 = p + 3 := by omega
    rw [this, ← h3]
    simp
  · have h4 := hget 4
    rw [hd] at h4
    subst he
    simp only [lineStartAt]
    have : p + 5 - 1 = p + 4 := by omega
    rw [this, ← h4]
    simp

theorem delim_head {c : List Byte} {p e : Nat} (h : delimLineEnd c p = some e) :
    c.get? p = some DASH := by
  have hb := delimLineEnd_bounds h
  have hget : (c.drop p).get? 0 = c.get? (p + 0) := by
    simp [List.getElem?_drop]
  rcases hb.2.1 with ⟨_, hd⟩ | ⟨_, hd⟩ <;> rw [hd] at hget <;> simpa using hget.symm

theorem second_search {c : List Byte} {e0 q e : Nat}
    (h0 : delimLineEnd c 0 = some e0) (hq0 : 0 < q) (hq : delimLineEnd c q = some e)
    (hfirst : ∀ p, 0 < p → p < q → delimLineEnd c p = none) :
    yamlPattern.find true (dropBlankLines (c.drop e0))
      = some (⟨lineStartAt c q, c.drop q⟩, ⟨true, dropBlankLines (c.drop e)⟩) := by
  have hb0 := delimLineEnd_bounds h0
  have he0 : lineStartAt c e0 = true := delim_end_lineStart h0
  have he0pos : 0 < e0 := by
    rcases hb0.2.1 with ⟨he, _⟩ | ⟨he, _⟩ <;> omega
  have he0q : e0 ≤ q := delim_after_first h0 hq0 hq
  obtain ⟨i1, h1, _, h3, h4, h5⟩ := dropBlank_pos c e0 he0 hb0.2.2
  have hi1q : i1 ≤ q := by
    by_contra hlt
    obtain ⟨x, hx, hsx⟩ := h5 q he0q (by omega)
    rw [delim_head hq] at hx
    have : x = DASH := by simpa using hx.symm
    subst this
    exact absurd hsx (by decide)
  have hf := find_at c q e hq (q - i1) i1 (by omega)
    (fun p hp hpq => hfirst p (by omega) hpq)
  rw [h4] at hf
  rw [h3]
  exact hf

theorem search_after_first_none {c : List Byte} {e0 : Nat}
    (h0 : delimLineEnd c 0 = some e0)
    (hnone : ∀ p, 0 < p → delimLineEnd c p = none) :
    yamlPattern.find true (dropBlankLines (c.drop e0)) = none := by
  have hb0 := delimLineEnd_bounds h0
  have he0 : lineStartAt c e0 = true := delim_end_lineStart h0
  have he0pos : 0 < e0 := by
    rcases hb0.2.1 with ⟨he, _⟩ | ⟨he, _⟩ <;> omega
  obtain ⟨i1, h1, _, h3, h4, _⟩ := dropBlank_pos c e0 he0 hb0.2.2
  have hf := find_none c c.length i1 (by omega) (fun p hp => hnone p (by omega))
  rw [h4] at hf
  rw [h3]
  exact hf

theorem first_search {c : List Byte} {e0 : Nat} (h0 : delimLineEnd c 0 = some e0) :
    yamlPattern.find true c = some (⟨true, c⟩, ⟨true, dropBlankLines (c.drop e0)⟩) := by
  have hf := find_at c 0 e0 h0 0 0 rfl (fun p _ hp => absurd hp (Nat.not_lt_zero p))
  simpa [lineStartAt_zero] using hf

/-! ## Claims on the frontmatter filter -/

/-- C1, as amended: when the input begins with a delimiter line (ending at
offset `e0`) and `q` is the offset of the first later delimiter line (ending at
offset `e`), `RemoveFrontmatter` returns the bytes after offset `e` with their
leading blank lines removed. -/
theorem RemoveFrontmatter_pair (c : List Byte) (e0 q e : Nat)
    (h0 : delimLineEnd c 0 = some e0) (hq0 : 0 < q) (hq : delimLineEnd c q = some e)
    (hfirst : ∀ p, 0 < p → p < q → delimLineEnd c p = none) :
    RemoveFrontmatter c = dropBlankLines (c.drop e) := by
  have h1 := first_search h0
  have h2 := second_search h0 hq0 hq hfirst
  rw [removeFrontmatter_of_two h1 rfl h2]
  exact drop_of_suffix ((dropBlankLines_suffix _).trans (List.drop_suffix e c))

/-- C1, witness: the amended statement at `---\na\n---\n\nb`, where the
result is `b`. -/
theorem RemoveFrontmatter_pair_witness :
    RemoveFrontmatter (bytes "---\na\n---\n\nb")
      = dropBlankLines ((bytes "---\na\n---\n\nb").drop 10) :=
  RemoveFrontmatter_pair (bytes "---\na\n---\n\nb") 4 6 10 (by decide) (by decide) (by decide)
    (by intro p h1 h2; interval_cases p <;> decide)

/-- C1, as stated, fails: on `---\na\n---\n\nb` the second delimiter line ends
at offset 10, the bytes after it are `\nb`, and `RemoveFrontmatter` returns
`b`: the blank line after the delimiter is removed too. -/
theorem RemoveFrontmatter_pair_counterexample :
    ¬ (∀ (c : List Byte) (e0 q e : Nat),
        delimLineEnd c 0 = some e0 → 0 < q → delimLineEnd c q = some e →
        (∀ p, 0 < p → p < q → delimLineEnd c p = none) →
        RemoveFrontmatter c = c.drop e) := by
  intro h
  have h' := h (bytes "---\na\n---\n\nb") 4 6 10 (by decide) (by decide) (by decide)
    (by intro p h1 h2; interval_cases p <;> decide)
  exact absurd h' (by decide)

/-- C2: an input with no leading delimiter pair (offset 0 starts no delimiter
line, or no later offset starts one) is returned unchanged. -/
theorem RemoveFrontmatter_no_pair (c : List Byte)
    (h : delimLineEnd c 0 = none ∨ ∀ p, 0 < p → delimLineEnd c p = none) :
    RemoveFrontmatter c = c := by
  cases h0 : delimLineEnd c 0 with
  | some e0 =>
    have hnone : ∀ p, 0 < p → delimLineEnd c p = none := by
      rcases h with h | h
      · rw [h0] at h; cases h
      · exact h
    exact removeFrontmatter_of_second_none (first_search h0) (search_after_first_none h0 hnone)
  | none =>
    have hh : (yamlPattern.run ⟨true, c⟩).head? = none := by
      have := yaml_head_at c 0
      rw [h0, lineStartAt_zero] at this
      simpa using this
    cases c with
    | nil => exact removeFrontmatter_of_find_none (find_of_none_nil hh)
    | cons x t =>
      have hf := find_of_none_cons hh
      cases hr : yamlPattern.find (x == LF) t with
      | none => rw [hr] at hf; exact removeFrontmatter_of_find_none hf
      | some se =>
        obtain ⟨s, e⟩ := se
        rw [hr] at hf
        have hlen := find_start_len yamlPattern t _ s e hr
        exact removeFrontmatter_of_late_start hf (by simp only [List.length_cons]; omega)

/-- C2, witness: `x---\na\n---\nb` does not start with a delimiter line, and
`---\na\n---` has no later delimiter line ended by a line feed. -/
theorem RemoveFrontmatter_no_pair_witness :
    RemoveFrontmatter (bytes "x---\na\n---\nb") = bytes "x---\na\n---\nb" ∧
    RemoveFrontmatter (bytes "---\na\n---") = bytes "---\na\n---" :=
  ⟨RemoveFrontmatter_no_pair (bytes "x---\na\n---\nb") (Or.inl (by decide)),
   RemoveFrontmatter_no_pair (bytes "---\na\n---") (Or.inr (by
     intro p hp
     by_cases hlt : p < 9
     · interval_cases p <;> decide
     · exact delimLineEnd_none_of_ge (by simp [bytes]; omega)))⟩

/-! ## Claims on the controller -/

theorem newModel_state_file (env : Env) (cfg : Config) (content : List Byte) (info : FileInfo)
    (hp : cfg.Path ≠ "") (hs : env.stat cfg.Path = .ok info) (hd : info.isDir = false) :
    (newModel env cfg content).state = .stateShowDocument := by
  unfold newModel
  by_cases h1 : cfg.GlamourStyle = AutoStyle <;> by_cases h2 : env.hasDarkBackground = true <;>
    simp [h1, h2, hp, hs, hd]

theorem newModel_state_dir (env : Env) (cfg : Config) (content : List Byte) (info : FileInfo)
    (hp : cfg.Path ≠ "") (hs : env.stat cfg.Path = .ok info) (hd : info.isDir = true) :
    (newModel env cfg content).state = .stateShowStash := by
  unfold newModel
  by_cases h1 : cfg.GlamourStyle = AutoStyle <;> by_cases h2 : env.hasDarkBackground = true <;>
    simp [h1, h2, hp, hs, hd]

theorem newModel_state_empty (env : Env) (cfg : Config)
    (hp : cfg.Path = "") (hdot : ∀ info, env.stat "." = .ok info → info.isDir = true) :
    (newModel env cfg []).state = .stateShowStash := by
  unfold newModel
  cases hs : env.stat "." with
  | error e =>
    by_cases h1 : cfg.GlamourStyle = AutoStyle <;> by_cases h2 : env.hasDarkBackground = true <;>
      simp [h1, h2, hp, hs]
  | ok info =>
    have hd := hdot info hs
    by_cases h1 : cfg.GlamourStyle = AutoStyle <;> by_cases h2 : env.hasDarkBackground = true <;>
      simp [h1, h2, hp, hs, hd]

theorem Init_stash (env : Env) (m : Model) (h : m.state = .stateShowStash) :
    Init env m = [Atom.spinnerTick, Atom.findLocalFiles m.common] := by
  simp [Init, h, Batch]

theorem Init_document (env : Env) (m : Model) (h : m.state = .stateShowDocument) :
    Init env m =
      match env.readFile m.common.cfg.Path with
      | .error err => [Atom.errCmd err]
      | .ok content => [Atom.spinnerTick, Atom.renderWithGlamour m.pager (RemoveFrontmatter content)] := by
  simp only [Init, h]
  cases env.readFile m.common.cfg.Path <;> simp [Batch]

theorem countDiscovery_Init_stash (env : Env) (m : Model) (h : m.state = .stateShowStash) :
    countDiscovery (Init env m) = 1 := by
  rw [Init_stash env m h]
  simp [countDiscovery]

theorem countDiscovery_Init_document (env : Env) (m : Model) (h : m.state = .stateShowDocument) :
    countDiscovery (Init env m) = 0 := by
  rw [Init_document env m h]
  cases env.readFile m.common.cfg.Path <;> simp [countDiscovery]

theorem newModel_literal (env : Env) (cfg : Config) (content : List Byte)
    (hp : cfg.Path = "") (hc : content ≠ []) :
    (newModel env cfg content).state = .stateShowDocument ∧
    (newModel env cfg content).pager.currentDocument.Body = content ∧
    (newModel env cfg content).common.cfg.Path = "" := by
  unfold newModel
  by_cases h1 : cfg.GlamourStyle = AutoStyle <;> by_cases h2 : env.hasDarkBackground = true <;>
    simp [h1, h2, hp, hc]

theorem Init_literal (env : Env) (cfg : Config) (content : List Byte)
    (hp : cfg.Path = "") (hc : content ≠ []) :
    Init env (newModel env cfg content) =
      match env.readFile "" with
      | .error err => [Atom.errCmd err]
      | .ok fileBytes =>
        [Atom.spinnerTick,
          Atom.renderWithGlamour (newModel env cfg content).pager (RemoveFrontmatter fileBytes)] := by
  obtain ⟨h1, _, h3⟩ := newModel_literal env cfg content hp hc
  rw [Init_document env _ h1, h3]

theorem newModel_fatal (env : Env) (cfg : Config) (content : List Byte) (err : Error)
    (hlit : ¬ (cfg.Path = "" ∧ content ≠ []))
    (hs : env.stat (if cfg.Path = "" then "." else cfg.Path) = .error err) :
    (newModel env cfg content).fatalErr = some err ∧
    (newModel env cfg content).state = .stateShowStash := by
  unfold newModel
  by_cases hp : cfg.Path = ""
  · have hc : content = [] := by
      by_contra hc
      exact hlit ⟨hp, hc⟩
    simp only [hp, if_true] at hs
    by_cases h1 : cfg.GlamourStyle = AutoStyle <;> by_cases h2 : env.hasDarkBackground = true <;>
      simp [h1, h2, hp, hc, hs]
  · simp only [hp, if_false] at hs
    by_cases h1 : cfg.GlamourStyle = AutoStyle <;> by_cases h2 : env.hasDarkBackground = true <;>
      simp [h1, h2, hp, hs]

theorem Update_fatal_key (env : Env) (m : Model) (k : String) (h : m.fatalErr ≠ none) :
    Update env m (.key k) = (m, [Atom.quit]) := by
  cases hf : m.fatalErr with
  | none => exact absurd hf h
  | some e => simp [Update, hf]

theorem Update_reload (env : Env) (m : Model) (hf : m.fatalErr = none)
    (hs : m.state = .stateShowStash) (hfl : m.stash.filterState ≠ .filtering) :
    Update env m (.key "r")
      = ({ m with stash := { m.stash with markdowns := [] } },
          Init env { m with stash := { m.stash with markdowns := [] } }) := by
  simp [Update, hf, hs, hfl]

/-- C3: a path that stats as a regular file gives the state `stateShowDocument`
and an `Init` without discovery command; a path that stats as a directory, and
an empty path with no content (where `.` is statted, a directory whenever it
can be statted), give the state `stateShowStash` and an `Init` with exactly
one discovery command. -/
theorem launch_mode (env : Env) (cfg : Config) (content : List Byte) :
    (∀ info, cfg.Path ≠ "" → env.stat cfg.Path = .ok info → info.isDir = false →
      (newModel env cfg content).state = .stateShowDocument ∧
      countDiscovery (Init env (newModel env cfg content)) = 0) ∧
    (∀ info, cfg.Path ≠ "" → env.stat cfg.Path = .ok info → info.isDir = true →
      (newModel env cfg content).state = .stateShowStash ∧
      countDiscovery (Init env (newModel env cfg content)) = 1) ∧
    (cfg.Path = "" → content = [] →
      (∀ info, env.stat "." = .ok info → info.isDir = true) →
      (newModel env cfg content).state = .stateShowStash ∧
      countDiscovery (Init env (newModel env cfg content)) = 1) := by
  refine ⟨?_, ?_, ?_⟩
  · intro info hp hs hd
    have h := newModel_state_file env cfg content info hp hs hd
    exact ⟨h, countDiscovery_Init_document env _ h⟩
  · intro info hp hs hd
    have h := newModel_state_dir env cfg content info hp hs hd
    exact ⟨h, countDiscovery_Init_stash env _ h⟩
  · intro hp hc hdot
    subst hc
    have h := newModel_state_empty env cfg hp hdot
    exact ⟨h, countDiscovery_Init_stash env _ h⟩

/-- C3, witness: in the sample environment, `notes/today.md` opens the document
view with no discovery; `docs` and the empty path open the list with one. -/
theorem launch_mode_witness :
    ((newModel sampleEnv { Path := "notes/today.md" } []).state = .stateShowDocument ∧
      countDiscovery (Init sampleEnv (newModel sampleEnv { Path := "notes/today.md" } [])) = 0) ∧
    ((newModel sampleEnv { Path := "docs" } []).state = .stateShowStash ∧
      countDiscovery (Init sampleEnv (newModel sampleEnv { Path := "docs" } [])) = 1) ∧
    ((newModel sampleEnv {} []).state = .stateShowStash ∧
      countDiscovery (Init sampleEnv (newModel sampleEnv {} [])) = 1) :=
  ⟨(launch_mode sampleEnv { Path := "notes/today.md" } []).1 ⟨false, 7⟩
      (by decide) (by simp [sampleEnv]) rfl,
   (launch_mode sampleEnv { Path := "docs" } []).2.1 ⟨true, 0⟩ (by decide) (by simp [sampleEnv]) rfl,
   (launch_mode sampleEnv {} []).2.2 rfl rfl
      (by intro info h; simp [sampleEnv] at h; rw [← h])⟩

/-- C4, the code against the claim: for every launch with an empty path and
non-empty content, the model shows the document view with that content as
body and `Init` issues no discovery command; but `Init` reads the file at the
empty path: it returns the error command when that read fails, and otherwise
renders the bytes of that file, in neither case the pre-loaded content. -/
theorem Init_literal_content (env : Env) (cfg : Config) (content : List Byte)
    (hp : cfg.Path = "") (hc : content ≠ []) :
    (newModel env cfg content).state = .stateShowDocument ∧
    (newModel env cfg content).pager.currentDocument.Body = content ∧
    countDiscovery (Init env (newModel env cfg content)) = 0 ∧
    Init env (newModel env cfg content) =
      match env.readFile "" with
      | .error err => [Atom.errCmd err]
      | .ok fileBytes =>
        [Atom.spinnerTick,
          Atom.renderWithGlamour (newModel env cfg content).pager (RemoveFrontmatter fileBytes)] := by
  have hm := newModel_literal env cfg content hp hc
  exact ⟨hm.1, hm.2.1, countDiscovery_Init_document env _ hm.1, Init_literal env cfg content hp hc⟩

/-- C4, at the failing input: launched with an empty path and the content
`# hi`, where reading the empty path fails, `Init` returns the command that
delivers the error and no render command. -/
theorem Init_literal_content_error :
    (newModel sampleEnv {} [35, 32, 104, 105]).pager.currentDocument.Body = [35, 32, 104, 105] ∧
    Init sampleEnv (newModel sampleEnv {} [35, 32, 104, 105])
      = [Atom.errCmd "no such file or directory"] :=
  ⟨(Init_literal_content sampleEnv {} [35, 32, 104, 105] rfl (by decide)).2.1,
   (Init_literal_content sampleEnv {} [35, 32, 104, 105] rfl (by decide)).2.2.2.trans
     (by simp [sampleEnv])⟩

/-- C9: when the stat of the launch path fails, `newModel` records the error
as the fatal error; and with a fatal error set every key message makes
`Update` return the quit command and the model unchanged. -/
theorem fatal_error (env : Env) :
    (∀ (cfg : Config) (content : List Byte) (err : Error),
      ¬ (cfg.Path = "" ∧ content ≠ []) →
      env.stat (if cfg.Path = "" then "." else cfg.Path) = .error err →
      (newModel env cfg content).fatalErr = some err) ∧
    (∀ (m : Model) (k : String), m.fatalErr ≠ none →
      Update env m (.key k) = (m, [Atom.quit])) :=
  ⟨fun cfg content err hlit hs => (newModel_fatal env cfg content err hlit hs).1,
   fun m k h => Update_fatal_key env m k h⟩

/-- C9, witness: in the sample environment `missing.md` cannot be statted;
the model holds the error, and the key `j` quits. -/
theorem fatal_error_witness :
    (newModel sampleEnv { Path := "missing.md" } []).fatalErr
      = some "no such file or directory" ∧
    Update sampleEnv (newModel sampleEnv { Path := "missing.md" } []) (.key "j")
      = (newModel sampleEnv { Path := "missing.md" } [], [Atom.quit]) :=
  ⟨(fatal_error sampleEnv).1 { Path := "missing.md" } [] "no such file or directory"
      (by decide) (by simp [sampleEnv]),
   (fatal_error sampleEnv).2 (newModel sampleEnv { Path := "missing.md" } []) "j"
      (by
        rw [(newModel_fatal sampleEnv { Path := "missing.md" } [] "no such file or directory"
          (by decide) (by simp [sampleEnv])).1]
        simp)⟩

/-- C8, as amended: in the list state, with no fatal error set and the filter
not being edited, the key `r` empties the entries, keeps the list state, and
returns the commands of `Init`, with exactly one discovery command. -/
theorem reload_restarts_discovery (env : Env) (m : Model) (hf : m.fatalErr = none)
    (hs : m.state = .stateShowStash) (hfl : m.stash.filterState ≠ .filtering) :
    (Update env m (.key "r")).1.stash.markdowns = [] ∧
    (Update env m (.key "r")).1.state = .stateShowStash ∧
    (Update env m (.key "r")).2 = Init env (Update env m (.key "r")).1 ∧
    countDiscovery (Update env m (.key "r")).2 = 1 := by
  rw [Update_reload env m hf hs hfl]
  refine ⟨rfl, hs, rfl, ?_⟩
  exact countDiscovery_Init_stash env _ hs

/-- C8, witness: a list holding one entry is reloaded. -/
theorem reload_restarts_discovery_witness :
    (Update sampleEnv (listModel { markdowns := [{ localPath := "a.md" }] }) (.key "r")).1.stash.markdowns = [] ∧
    (Update sampleEnv (listModel { markdowns := [{ localPath := "a.md" }] }) (.key "r")).1.state
      = .stateShowStash ∧
    (Update sampleEnv (listModel { markdowns := [{ localPath := "a.md" }] }) (.key "r")).2
      = Init sampleEnv (Update sampleEnv (listModel { markdowns := [{ localPath := "a.md" }] }) (.key "r")).1 ∧
    countDiscovery (Update sampleEnv (listModel { markdowns := [{ localPath := "a.md" }] }) (.key "r")).2 = 1 :=
  reload_restarts_discovery sampleEnv (listModel { markdowns := [{ localPath := "a.md" }] })
    rfl rfl (by decide)

/-- C8, as stated, fails: the model `newModel` builds for a path that cannot be
statted is in the list state with the filter not being edited, and the key
`r` quits instead of starting a discovery. -/
theorem reload_counterexample :
    ¬ (∀ (env : Env) (m : Model), m.state = .stateShowStash →
        m.stash.filterState ≠ .filtering →
        (Update env m (.key "r")).1.stash.markdowns = [] ∧
        (Update env m (.key "r")).1.state = .stateShowStash ∧
        (Update env m (.key "r")).2 = Init env (Update env m (.key "r")).1 ∧
        countDiscovery (Update env m (.key "r")).2 = 1) := by
  intro h
  have hm := newModel_fatal sampleEnv { Path := "missing.md" } [] "no such file or directory"
    (by decide) (by simp [sampleEnv])
  have hfl : (newModel sampleEnv { Path := "missing.md" } []).stash.filterState ≠ .filtering := by
    simp [newModel, sampleEnv, AutoStyle]
  have h' := (h sampleEnv (newModel sampleEnv { Path := "missing.md" } []) hm.2 hfl).2.2.2
  rw [Update_fatal_key sampleEnv _ "r" (by rw [hm.1]; simp)] at h'
  simp [countDiscovery] at h'

theorem Update_filtering_forward (env : Env) (m : Model) (k : String)
    (hf : m.fatalErr = none) (hs : m.state = .stateShowStash)
    (hfl : m.stash.filterState = .filtering)
    (hz : k ≠ "ctrl+z") (hc : k ≠ "ctrl+c")
    (hesc : ¬ (k = "esc" ∧ m.stash.viewState = .stashStateLoadingDocument)) :
    Update env m (.key k) = forwardToStash env m (.key k) := by
  have hpc : processChildren env m (.key k) [] = forwardToStash env m (.key k) := by
    simp [processChildren, forwardToStash, hs, Batch]
  simp only [Update, hf]
  split_ifs <;> first | rfl | exact hpc | (exfalso; simp_all)

theorem Update_ctrl_c (env : Env) (m : Model) : Update env m (.key "ctrl+c") = (m, [Atom.quit]) := by
  cases hf : m.fatalErr <;> simp [Update, hf]

theorem Update_ctrl_z (env : Env) (m : Model) (hf : m.fatalErr = none) :
    Update env m (.key "ctrl+z") = (m, [Atom.suspend]) := by
  simp [Update, hf]

theorem Update_esc_loading (env : Env) (m : Model) (hf : m.fatalErr = none)
    (hl : m.stash.viewState = .stashStateLoadingDocument) :
    Update env m (.key "esc") = ((unloadDocument env m).1, Batch (unloadDocument env m).2) := by
  simp [Update, hf, hl]

theorem unloadDocument_state (env : Env) (m : Model) :
    (unloadDocument env m).1.state = .stateShowStash ∧
    (unloadDocument env m).1.stash = { m.stash with viewState := .stashStateReady } ∧
    (unloadDocument env m).1.pager = { env.pagerUnload m.pager with showHelp := false } := by
  simp [unloadDocument]

theorem unloadDocument_tick (env : Env) (m : Model) :
    Atom.spinnerTick ∈ Batch (unloadDocument env m).2
      ↔ env.shouldSpin (unloadDocument env m).1.stash = false := by
  simp only [unloadDocument, Batch]
  by_cases h1 : (env.pagerUnload m.pager).highPerformanceRendering = true <;>
    cases h2 : env.shouldSpin { m.stash with viewState := .stashStateReady } <;>
    simp [h1, h2]

theorem Update_unload (env : Env) (m : Model) (k : String)
    (hf : m.fatalErr = none) (hs : m.state = .stateShowDocument)
    (hk : k = "esc" ∨ k = "left" ∨ k = "h" ∨ k = "delete") :
    Update env m (.key k) = ((unloadDocument env m).1, Batch (unloadDocument env m).2) := by
  rcases hk with hk | hk | hk | hk <;> subst hk <;> simp [Update, hf, hs]

/-- C5, as amended: with no fatal error set, the list active and its filter
being edited, every key other than `ctrl+c`, `ctrl+z`, and `esc` while the
list view is loading a document, gives exactly the model and the command of
the list view's update on that key; `ctrl+c` still quits, `ctrl+z` still
suspends, and `esc` while the list view is loading a document unloads the
document, each with the model otherwise untouched by the list view. -/
theorem Update_filtering (env : Env) (m : Model) (k : String)
    (hf : m.fatalErr = none) (hs : m.state = .stateShowStash)
    (hfl : m.stash.filterState = .filtering) :
    (k = "ctrl+c" → Update env m (.key k) = (m, [Atom.quit])) ∧
    (k = "ctrl+z" → Update env m (.key k) = (m, [Atom.suspend])) ∧
    (k = "esc" → m.stash.viewState = .stashStateLoadingDocument →
      Update env m (.key k) = ((unloadDocument env m).1, Batch (unloadDocument env m).2)) ∧
    (k ≠ "ctrl+c" → k ≠ "ctrl+z" →
      ¬ (k = "esc" ∧ m.stash.viewState = .stashStateLoadingDocument) →
      Update env m (.key k) = forwardToStash env m (.key k)) := by
  refine ⟨?_, ?_, ?_, ?_⟩
  · intro hk; subst hk; exact Update_ctrl_c env m
  · intro hk; subst hk; exact Update_ctrl_z env m hf
  · intro hk hl; subst hk; exact Update_esc_loading env m hf hl
  · intro hc hz hesc; exact Update_filtering_forward env m k hf hs hfl hz hc hesc

/-- C5, witness: while the filter is edited, the key `q` goes to the list view,
`ctrl+c` quits and `ctrl+z` suspends. -/
theorem Update_filtering_witness :
    Update sampleEnv (listModel { filterState := .filtering }) (.key "q")
      = forwardToStash sampleEnv (listModel { filterState := .filtering }) (.key "q") ∧
    Update sampleEnv (listModel { filterState := .filtering }) (.key "ctrl+c")
      = (listModel { filterState := .filtering }, [Atom.quit]) ∧
    Update sampleEnv (listModel { filterState := .filtering }) (.key "ctrl+z")
      = (listModel { filterState := .filtering }, [Atom.suspend]) :=
  ⟨(Update_filtering sampleEnv (listModel { filterState := .filtering }) "q" rfl rfl rfl).2.2.2
      (by decide) (by decide) (by decide),
   (Update_filtering sampleEnv (listModel { filterState := .filtering }) "ctrl+c" rfl rfl rfl).1
      rfl,
   (Update_filtering sampleEnv (listModel { filterState := .filtering }) "ctrl+z" rfl rfl rfl).2.1
      rfl⟩

/-- C5, as stated, fails: while the filter is edited the key `ctrl+c` still
quits; the result is not the one of the list view's update. -/
theorem Update_filtering_counterexample :
    ¬ (∀ (env : Env) (m : Model) (k : String), m.fatalErr = none →
        m.state = .stateShowStash → m.stash.filterState = .filtering →
        Update env m (.key k) = forwardToStash env m (.key k)) := by
  intro h
  have h' := h sampleEnv (listModel { filterState := .filtering }) "ctrl+c" rfl rfl rfl
  have h2 : (Update sampleEnv (listModel { filterState := .filtering }) (.key "ctrl+c")).2
      = [Atom.quit] := by
    simp [Update, listModel]
  rw [h'] at h2
  simp [forwardToStash, sampleEnv] at h2

/-- C6, the code against the claim: in the document view with no fatal error
set, the keys `esc`, `left`, `h` and `delete` make `Update` set the list state
and unload the pager's document, and the returned commands hold the spinner
tick exactly when `shouldSpin` is false on the list view, the reverse of the
claim. -/
theorem unload_spinner_inverted (env : Env) (m : Model) (k : String)
    (hf : m.fatalErr = none) (hs : m.state = .stateShowDocument)
    (hk : k = "esc" ∨ k = "left" ∨ k = "h" ∨ k = "delete") :
    (Update env m (.key k)).1.state = .stateShowStash ∧
    (Update env m (.key k)).1.pager = { env.pagerUnload m.pager with showHelp := false } ∧
    (Atom.spinnerTick ∈ (Update env m (.key k)).2
      ↔ env.shouldSpin (Update env m (.key k)).1.stash = false) := by
  rw [Update_unload env m k hf hs hk]
  exact ⟨(unloadDocument_state env m).1, (unloadDocument_state env m).2.2,
    unloadDocument_tick env m⟩

/-- C6, at the failing input: the list is fully loaded, so `shouldSpin` is
false once the document is unloaded, and the key `esc` returns the spinner
tick. -/
theorem unload_spinner_inverted_witness :
    sampleEnv.shouldSpin
      (Update sampleEnv (documentModel { loaded := true }) (.key "esc")).1.stash = false ∧
    Atom.spinnerTick ∈ (Update sampleEnv (documentModel { loaded := true }) (.key "esc")).2 :=
  have hsp : sampleEnv.shouldSpin
      (Update sampleEnv (documentModel { loaded := true }) (.key "esc")).1.stash = false := by
    rw [Update_unload sampleEnv (documentModel { loaded := true }) "esc" rfl rfl (Or.inl rfl)]
    simp [unloadDocument, sampleEnv, documentModel]
  ⟨hsp, (unload_spinner_inverted sampleEnv (documentModel { loaded := true }) "esc"
    rfl rfl (Or.inl rfl)).2.2.2 hsp⟩

theorem replaceAllAux_skip (old new : List Char) :
    ∀ (xs rest : List Char), replaceAllAux old new xs.length (xs ++ rest)
      = replaceAllAux old new 0 rest := by
  intro xs
  induction xs with
  | nil => intro rest; rfl
  | cons x xs ih =>
    intro rest
    simp only [List.length_cons, List.cons_append, replaceAllAux]
    exact ih rest

theorem replaceAllAux_prefix (c : Char) (old new rest : List Char) :
    replaceAllAux (c :: old) new 0 ((c :: old) ++ rest)
      = new ++ replaceAllAux (c :: old) new 0 rest := by
  have hp : (c :: old).isPrefixOf (c :: (old ++ rest)) = true := by
    rw [List.isPrefixOf_iff_prefix]
    exact ⟨rest, rfl⟩
  have hs := replaceAllAux_skip (c :: old) new old rest
  simp only [List.cons_append, replaceAllAux, List.append_eq, hp, if_true, List.length_cons,
    Nat.add_sub_cancel, hs]

/-- C10, the code against the claim: with no symbolic links, the note computed
for the path `cwd + separator + rel` is `rel` with every occurrence of
`cwd + separator` inside it removed as well, not `rel` itself. -/
theorem stripAbsolutePath_removes_all (env : Env) (hid : ∀ p, env.evalSymlinks p = p)
    (cwd rel : String) :
    stripAbsolutePath env (cwd ++ String.singleton PathSeparator ++ rel) cwd
      = ReplaceAll rel (cwd ++ String.singleton PathSeparator) "" := by
  have hne : cwd ++ String.singleton PathSeparator ≠ "" := by
    intro h
    have := congrArg String.data h
    simp [String.singleton] at this
  simp only [stripAbsolutePath, hid, ReplaceAll, hne, if_false]
  cases hold : (cwd ++ String.singleton PathSeparator).data with
  | nil =>
    exfalso
    apply hne
    apply String.ext
    simp at hold
  | cons c old =>
    have : (cwd ++ String.singleton PathSeparator ++ rel).data = (c :: old) ++ rel.data := by
      rw [String.data_append, hold]
    rw [this, replaceAllAux_prefix]
    rfl

/-- C10, at the failing input: with the working directory `/src` and the file
`/src/pkg/src/main.md`, whose path relative to the working directory is
`pkg/src/main.md`, the note is `pkgmain.md`: the occurrence of `/src/` inside
the relative path is removed too. -/
theorem stripAbsolutePath_inner_occurrence :
    stripAbsolutePath sampleEnv ("/src" ++ String.singleton PathSeparator ++ "pkg/src/main.md")
      "/src" = "pkgmain.md" :=
  (stripAbsolutePath_removes_all sampleEnv (fun _ => rfl) "/src" "pkg/src/main.md").trans
    (by decide)

theorem Update_discovery_count (env : Env)
    (hupd : ∀ cm s msg, isDiscoveryMsg msg = true →
      (env.stashUpdate cm s msg).1.markdowns = s.markdowns)
    (m : Model) (msg : Msg) (hmsg : isDiscoveryMsg msg = true) (p : String) :
    (heldPaths (Update env m msg).1).count p
      = (heldPaths m).count p + (foundPaths [msg]).count p := by
  cases msg with
  | initLocalFileSearch cwd ch =>
    have h := hupd { m.common with cwd := cwd } m.stash (.initLocalFileSearch cwd ch) rfl
    cases hf : m.fatalErr <;> cases hs : m.state <;>
      simp [Update, processChildren, heldPaths, foundPaths, hf, hs, h]
  | foundLocalFile res =>
    have h := fun s => hupd m.common s (.foundLocalFile res) rfl
    cases hf : m.fatalErr <;> cases hs : m.state <;>
      simp only [Update, processChildren, heldPaths, foundPaths, hf, hs, h] <;>
      split_ifs <;>
      simp [addMarkdowns, localFileToMarkdown, buildFilterValue, List.count_append,
        List.count_cons]
  | key _ => simp [isDiscoveryMsg] at hmsg
  | windowSize _ _ => simp [isDiscoveryMsg] at hmsg
  | fetchedMarkdown _ => simp [isDiscoveryMsg] at hmsg
  | contentRendered _ => simp [isDiscoveryMsg] at hmsg
  | localFileSearchFinished => simp [isDiscoveryMsg] at hmsg
  | filteredMarkdown _ => simp [isDiscoveryMsg] at hmsg
  | other _ => simp [isDiscoveryMsg] at hmsg

theorem foundPaths_cons (msg : Msg) (rest : List Msg) :
    foundPaths (msg :: rest) = foundPaths [msg] ++ foundPaths rest := by
  cases msg <;> simp [foundPaths]

theorem runMsgs_discovery_count (env : Env)
    (hupd : ∀ cm s msg, isDiscoveryMsg msg = true →
      (env.stashUpdate cm s msg).1.markdowns = s.markdowns)
    (p : String) (msgs : List Msg) :
    ∀ (m : Model), (∀ msg ∈ msgs, isDiscoveryMsg msg = true) →
      (heldPaths (runMsgs env m msgs)).count p
        = (heldPaths m).count p + (foundPaths msgs).count p := by
  induction msgs with
  | nil => intro m _; simp [runMsgs, foundPaths]
  | cons msg rest ih =>
    intro m hall
    have h1 := Update_discovery_count env hupd m msg (hall msg (List.mem_cons_self _ _)) p
    have h2 := ih (Update env m msg).1 (fun x hx => hall x (List.mem_cons_of_mem _ hx))
    have hrun : runMsgs env m (msg :: rest) = runMsgs env (Update env m msg).1 rest := by
      simp [runMsgs]
    rw [hrun, h2, h1, foundPaths_cons msg rest, List.count_append]
    omega

/-- C7, as amended: `Update` keeps no trace of the run a message comes from.
Provided the list view adds the entry it is handed (`addMarkdowns`, modelled
from the spec) and its own update leaves the entries alone on discovery
messages, after a reload (key `r` in the list state, no fatal error, filter
not being edited) and any sequence of discovery messages, from the superseded
run or from the new one, the list view holds every file as many times as
entry-found messages of the sequence deliver it: twice when the old run,
late, and the new run both deliver it. -/
theorem reload_then_found (env : Env)
    (hupd : ∀ cm s msg, isDiscoveryMsg msg = true →
      (env.stashUpdate cm s msg).1.markdowns = s.markdowns)
    (m : Model) (hf : m.fatalErr = none) (hs : m.state = .stateShowStash)
    (hfl : m.stash.filterState ≠ .filtering)
    (msgs : List Msg) (hall : ∀ msg ∈ msgs, isDiscoveryMsg msg = true) (p : String) :
    (heldPaths (runMsgs env m (.key "r" :: msgs))).count p = (foundPaths msgs).count p := by
  have hrun : runMsgs env m (.key "r" :: msgs)
      = runMsgs env (Update env m (.key "r")).1 msgs := by
    simp [runMsgs]
  rw [hrun, runMsgs_discovery_count env hupd p msgs _ hall, Update_reload env m hf hs hfl]
  simp [heldPaths]

/-- C7, witness: the list holds `/home/u/a.md`; after the reload, a late entry
of the old run, the start of the new run and the same entry from the new run
arrive; the file is held as often as it was delivered. -/
theorem reload_then_found_witness :
    (heldPaths (runMsgs sampleEnv (listModel { markdowns := [{ localPath := "/home/u/a.md" }] })
      [.key "r", .foundLocalFile ⟨"/home/u/a.md", 1⟩, .initLocalFileSearch "/home/u" 2,
        .foundLocalFile ⟨"/home/u/a.md", 1⟩])).count "/home/u/a.md"
      = (foundPaths [.foundLocalFile ⟨"/home/u/a.md", 1⟩, .initLocalFileSearch "/home/u" 2,
        .foundLocalFile ⟨"/home/u/a.md", 1⟩]).count "/home/u/a.md" :=
  reload_then_found sampleEnv (fun _ _ _ _ => rfl)
    (listModel { markdowns := [{ localPath := "/home/u/a.md" }] }) rfl rfl (by decide)
    [.foundLocalFile ⟨"/home/u/a.md", 1⟩, .initLocalFileSearch "/home/u" 2,
      .foundLocalFile ⟨"/home/u/a.md", 1⟩]
    (by intro msg hmsg; simp at hmsg; rcases hmsg with h | h | h <;> subst h <;> rfl)
    "/home/u/a.md"

/-- C7, as stated, fails: the list holds `/home/u/a.md`; after the reload the
old run delivers that file late, the new run starts and delivers it again; the
list view ends up holding the file twice. -/
theorem reload_stale_duplicate :
    (heldPaths (runMsgs sampleEnv (listModel { markdowns := [{ localPath := "/home/u/a.md" }] })
      [.key "r", .foundLocalFile ⟨"/home/u/a.md", 1⟩, .initLocalFileSearch "/home/u" 2,
        .foundLocalFile ⟨"/home/u/a.md", 1⟩])).count "/home/u/a.md" = 2 := by
  decide

end Glow
